import Mathlib

/-!
Shallow embedding of the GhostAnime anime-release checker (src/main.py).

The program polls catalog endpoints, deduplicates entries against an
in-memory set of identifiers, and renders a bounded notification.  The
definitions below translate the relevant parts of `fetch_recent_episodes`,
`check_loop` and the `start` / `stop` / `clear` command handlers.
-/

namespace GhostAnime

/-- One raw catalog item as decoded from the JSON response.  Every field the
source reads via `dict.get` is an `Option`; a missing key or a JSON null both
become `none`. -/
structure RawAnime where
  title : Option String
  title_english : Option String
  mal_id : Option Int
  score : Option ℚ
  status : Option String
  aired_from : Option String
  episodes : Option Int
  url : Option String
  image_url : Option String
  synopsis : Option String
deriving DecidableEq, Repr

/-- Python truthiness of an optional string: `None` and the empty string are
falsy. -/
def pyTruthyStr : Option String → Bool
  | none => false
  | some s => !s.isEmpty

/-- Python truthiness of an optional rational (the JSON score field). -/
def pyTruthyQ : Option ℚ → Bool
  | none => false
  | some q => q != 0

/-- Python truthiness of an optional integer (the JSON episodes field). -/
def pyTruthyInt : Option Int → Bool
  | none => false
  | some n => n != 0

/-- How a Python f-string renders a value that may be `None`. -/
def pyOptStr : Option String → String
  | none => "None"
  | some s => s

/-- How a Python f-string renders an optional integer. -/
def pyOptInt : Option Int → String
  | none => "None"
  | some n => toString n

/-- Source line 73: the raw title field, defaulting to Unknown Anime. -/
def rawTitle (a : RawAnime) : String :=
  a.title.getD "Unknown Anime"

/-- Source line 74: the english title when truthy, else the raw title. -/
def displayTitle (a : RawAnime) : String :=
  if pyTruthyStr a.title_english then a.title_english.getD "" else rawTitle a

/-- Source line 78: the unique id, the mal id and the raw title joined by an underscore. -/
def uniqueId (a : RawAnime) : String :=
  pyOptInt a.mal_id ++ "_" ++ rawTitle a

/-- Source line 92: the synopsis is truncated to 200 characters and an
ellipsis is appended whenever the raw synopsis is truthy; otherwise the fixed
placeholder is used. -/
def mkSummary : Option String → String
  | none => "No synopsis available"
  | some s => if s.isEmpty then "No synopsis available" else s.take 200 ++ "..."

/-- The `episode_info` dictionary built at source lines 82-93. -/
structure Entry where
  title : String
  title_jp : String
  mal_id : Option Int
  score : Option ℚ
  status : Option String
  aired_from : Option String
  episodes : Option Int
  url : Option String
  image : String
  synopsis : String
deriving DecidableEq, Repr

/-- Source lines 82-93: build the `episode_info` value from a raw item. -/
def mkEntry (a : RawAnime) : Entry :=
  { title := displayTitle a
    title_jp := rawTitle a
    mal_id := a.mal_id
    score := a.score
    status := a.status
    aired_from := a.aired_from
    episodes := a.episodes
    url := a.url
    image := a.image_url.getD ""
    synopsis := mkSummary a.synopsis }

/-- The identity under which an already-built `Entry` was registered in the
dedup store: `mkEntry` keeps `mal_id` and the raw title (`title_jp`), so the
unique id can be recomputed from the entry itself. -/
def entryUid (e : Entry) : String :=
  pyOptInt e.mal_id ++ "_" ++ e.title_jp

theorem entryUid_mkEntry (a : RawAnime) : entryUid (mkEntry a) = uniqueId a := rfl

/-! ### Entry Differ (source lines 72-96)

The per-entry dedup step: the accumulator pairs the `new_episodes` list built
so far with the current `last_seen_titles` set.  An accepted identity is
inserted into the set immediately, before the next raw item is examined. -/

/-- One iteration of the `for anime in anime_list` loop body
(source lines 72-96). -/
def differStep (acc : List Entry × Finset String) (a : RawAnime) :
    List Entry × Finset String :=
  if uniqueId a ∈ acc.2 then acc
  else (acc.1 ++ [mkEntry a], insert (uniqueId a) acc.2)

/-- The Entry Differ pass over one raw batch starting from a given dedup
store: returns the new-list and the updated store. -/
def differ (seen : Finset String) (batch : List RawAnime) :
    List Entry × Finset String :=
  batch.foldl differStep ([], seen)

/-! ### Source Fetcher (source lines 55-106)

Each endpoint request either succeeds with a decoded list or fails
(non-200 status, timeout, transport error, other exception); a failure makes
the loop body `continue` without touching the accumulated state.  A success
processes at most the first 10 items (`anime_list[:10]`). -/

/-- The observable outcome of one endpoint request. -/
inductive FetchOutcome
  | success (animeList : List RawAnime)
  | failure
deriving DecidableEq, Repr

/-- Whether an outcome is a success. -/
def FetchOutcome.isSuccess : FetchOutcome → Bool
  | .success _ => true
  | .failure => false

/-- One iteration of the `for api in apis` loop (source lines 55-106): a
failure of any kind leaves the accumulated state untouched; a success feeds
`anime_list[:10]` through the differ. -/
def passStep (acc : List Entry × Finset String) (o : FetchOutcome) :
    List Entry × Finset String :=
  match o with
  | .success l => (l.take 10).foldl differStep acc
  | .failure => acc

/-- One full fetch pass over the endpoint list (source lines 52-106): failed
endpoints contribute nothing; each successful endpoint feeds its first 10
items through the Entry Differ, accumulating `new_episodes` and
`last_seen_titles` across endpoints. -/
def fetchPass (seen : Finset String) (outs : List FetchOutcome) :
    List Entry × Finset String :=
  outs.foldl passStep ([], seen)

/-! ### Notifier rendering (source lines 109-152) -/

/-- One piece appended to `field_value` by the `+=` chain at source
lines 122-131.  The tag records which line of the block it is; `chunkStr`
gives the exact text. -/
inductive Chunk
  | statusLine (s : Option String)
  | scoreLine (q : ℚ)
  | episodesLine (n : Int)
  | synopsisLine (s : String)
  | urlLine (u : Option String)
deriving DecidableEq, Repr

/-- The exact text of each `field_value` piece (source lines 122-131). -/
def chunkStr : Chunk → String
  | .statusLine s => "**Status:** " ++ pyOptStr s ++ "\n"
  | .scoreLine q => "**Score:** " ++ toString q ++ "/10\n"
  | .episodesLine n => "**Episodes:** " ++ toString n ++ "\n"
  | .synopsisLine s => "**Synopsis:** " ++ s ++ "\n"
  | .urlLine u => "[View on MAL](" ++ pyOptStr u ++ ")"

/-- The sequence of pieces concatenated into `field_value` for one entry
(source lines 122-131): the status line always; the score line only when
the score field is truthy; the episodes line only when the episodes field
is truthy; then the synopsis line and the reference link. -/
def fieldChunks (e : Entry) : List Chunk :=
  [Chunk.statusLine e.status]
    ++ (if pyTruthyQ e.score then [Chunk.scoreLine (e.score.getD 0)] else [])
    ++ (if pyTruthyInt e.episodes then [Chunk.episodesLine (e.episodes.getD 0)]
        else [])
    ++ [Chunk.synopsisLine e.synopsis, Chunk.urlLine e.url]

/-- The full `field_value` string for one entry. -/
def fieldValue (e : Entry) : String :=
  String.join ((fieldChunks e).map chunkStr)

/-- One embed field as passed to `embed.add_field`. -/
structure EmbedField where
  name : String
  value : String
  inline : Bool
deriving DecidableEq, Repr

/-- The full-detail block added for one entry (source lines 133-137). -/
def mkField (e : Entry) : EmbedField :=
  { name := "📺 " ++ e.title, value := fieldValue e, inline := false }

/-- The count-only field added when more than 5 entries exist
(source lines 139-144). -/
def moreField (remaining : Nat) : EmbedField :=
  { name := "And more..."
    value := toString remaining ++ " additional anime updates!"
    inline := false }

/-- The list of fields of the rendered notification (source lines 121-144):
full detail for `new_episodes[:5]`, plus one count-only field when
`len(new_episodes) > 5`. -/
def embedFields (newEpisodes : List Entry) : List EmbedField :=
  (newEpisodes.take 5).map mkField
    ++ (if 5 < newEpisodes.length then [moreField (newEpisodes.length - 5)]
        else [])

/-! ### Notification dispatch and one full pass (source lines 109-162)

The dedup store is updated inside the differ loop; the notification phase
only reads `new_episodes` and `notification_channel`.  Delivery may fail
(the `channel.send` await can raise), which is modelled by a boolean the
environment chooses; no branch of the phase touches the store. -/

/-- What the notification phase of a pass does. -/
inductive NotifyResult
  | delivered (fields : List EmbedField)
  | deliveryFailed
  | noSink
  | noUpdates
deriving DecidableEq, Repr

/-- Source lines 109-162: if the new-list is empty only a log line is
emitted; otherwise, with no channel set nothing is sent; with a channel set
the embed is built and sent, and the send either succeeds or fails. -/
def notifyPhase (newEpisodes : List Entry) (chan : Option Nat)
    (deliveryOk : Bool) : NotifyResult :=
  if newEpisodes.isEmpty then .noUpdates
  else
    match chan with
    | none => .noSink
    | some _ =>
        if deliveryOk then .delivered (embedFields newEpisodes)
        else .deliveryFailed

/-- One full `fetch_recent_episodes` pass: fetch and diff (updating the
store), then the notification phase.  The store component is produced by the
differ alone. -/
def fullPass (seen : Finset String) (outs : List FetchOutcome)
    (chan : Option Nat) (deliveryOk : Bool) :
    List Entry × Finset String × NotifyResult :=
  let r := fetchPass seen outs
  (r.1, r.2, notifyPhase r.1 chan deliveryOk)

/-! ### Poll Scheduler and command handlers (source lines 187-276)

The globals are `check_task` (an asyncio task handle or `None`),
`last_seen_titles` and `notification_channel`.  A task handle is either still
running or done.  The ghost counter `spawned` counts every
`asyncio.create_task(check_loop())` call, so "at most one loop task" is
expressible. -/

/-- The observable state of the stored task handle. -/
inductive TaskStatus
  | running
  | done
deriving DecidableEq, Repr

/-- The module-level mutable state (source lines 30-32), plus the ghost
count of loop tasks ever spawned. -/
structure BotState where
  check_task : Option TaskStatus
  last_seen_titles : Finset String
  notification_channel : Option Nat
  spawned : Nat
deriving DecidableEq

/-- The guard `check_task and not check_task.done()` (source line 191). -/
def taskAlive : Option TaskStatus → Bool
  | some TaskStatus.running => true
  | _ => false

/-- Number of currently active loop tasks held by the state. -/
def activeLoopTasks (s : BotState) : Nat :=
  if taskAlive s.check_task then 1 else 0

/-- The `start` command (source lines 187-196): when a live task exists it
only reports that the checker is already running; otherwise it records the
channel and spawns the loop task. -/
def startCmd (s : BotState) (chan : Nat) : BotState × String :=
  if taskAlive s.check_task then (s, "❌ Anime checker is already running!")
  else
    ({ s with
        notification_channel := some chan
        check_task := some TaskStatus.running
        spawned := s.spawned + 1 },
      "✅ Anime Checker Started!")

/-- The `clear` command (source lines 270-276): read the size, empty the
set, report the prior size. -/
def clearCmd (s : BotState) : BotState × Nat :=
  ({ s with last_seen_titles := ∅ }, s.last_seen_titles.card)

/-! ### Lemmas about the differ fold -/

theorem differStep_store_mono (acc : List Entry × Finset String) (a : RawAnime) :
    acc.2 ⊆ (differStep acc a).2 := by
  unfold differStep
  split
  · exact Finset.Subset.refl _
  · exact Finset.subset_insert _ _

theorem differStep_list_mono (acc : List Entry × Finset String) (a : RawAnime)
    (e : Entry) (he : e ∈ acc.1) : e ∈ (differStep acc a).1 := by
  unfold differStep
  split
  · exact he
  · exact List.mem_append_left _ he

theorem foldl_differStep_store_mono (batch : List RawAnime) :
    ∀ acc : List Entry × Finset String,
      acc.2 ⊆ (batch.foldl differStep acc).2 := by
  induction batch with
  | nil => intro acc; exact Finset.Subset.refl _
  | cons a rest ih =>
      intro acc
      simp only [List.foldl_cons]
      exact (differStep_store_mono acc a).trans (ih (differStep acc a))

theorem foldl_differStep_list_mono (batch : List RawAnime) :
    ∀ (acc : List Entry × Finset String) (e : Entry), e ∈ acc.1 →
      e ∈ (batch.foldl differStep acc).1 := by
  induction batch with
  | nil => intro acc e he; exact he
  | cons a rest ih =>
      intro acc e he
      simp only [List.foldl_cons]
      exact ih (differStep acc a) e (differStep_list_mono acc a e he)

theorem uniqueId_mem_foldl_differStep (batch : List RawAnime) :
    ∀ (acc : List Entry × Finset String) (a : RawAnime), a ∈ batch →
      uniqueId a ∈ (batch.foldl differStep acc).2 := by
  induction batch with
  | nil => intro acc a ha; cases ha
  | cons b rest ih =>
      intro acc a ha
      simp only [List.foldl_cons]
      rcases List.mem_cons.mp ha with h | h
      · subst h
        have hmem : uniqueId a ∈ (differStep acc a).2 := by
          unfold differStep
          split
          · assumption
          · exact Finset.mem_insert_self _ _
        exact foldl_differStep_store_mono rest (differStep acc a) hmem
      · exact ih (differStep acc b) a h

theorem foldl_differStep_all_seen (batch : List RawAnime) :
    ∀ acc : List Entry × Finset String,
      (∀ a ∈ batch, uniqueId a ∈ acc.2) →
      batch.foldl differStep acc = acc := by
  induction batch with
  | nil => intro acc _; rfl
  | cons a rest ih =>
      intro acc h
      have hstep : differStep acc a = acc := by
        unfold differStep
        rw [if_pos (h a (List.mem_cons_self a rest))]
      simp only [List.foldl_cons, hstep]
      exact ih acc fun b hb => h b (List.mem_cons_of_mem a hb)

theorem foldl_differStep_fresh (batch : List RawAnime) :
    ∀ acc : List Entry × Finset String,
      (∀ a ∈ batch, uniqueId a ∉ acc.2) →
      (batch.map uniqueId).Nodup →
      (batch.foldl differStep acc).1 = acc.1 ++ batch.map mkEntry := by
  induction batch with
  | nil => intro acc _ _; simp
  | cons a rest ih =>
      intro acc hfresh hnodup
      have hnotin : uniqueId a ∉ acc.2 := hfresh a (List.mem_cons_self a rest)
      have hstep : differStep acc a =
          (acc.1 ++ [mkEntry a], insert (uniqueId a) acc.2) := by
        unfold differStep
        rw [if_neg hnotin]
      have hnodup' : (rest.map uniqueId).Nodup := (List.nodup_cons.mp (by
        simpa using hnodup)).2
      have hhead : uniqueId a ∉ rest.map uniqueId := (List.nodup_cons.mp (by
        simpa using hnodup)).1
      have hfresh' : ∀ b ∈ rest, uniqueId b ∉ (insert (uniqueId a) acc.2) := by
        intro b hb hmem
        rcases Finset.mem_insert.mp hmem with h | h
        · exact hhead (h ▸ List.mem_map_of_mem uniqueId hb)
        · exact hfresh b (List.mem_cons_of_mem a hb) h
      simp only [List.foldl_cons, hstep]
      calc (rest.foldl differStep (acc.1 ++ [mkEntry a], insert (uniqueId a) acc.2)).1
          = (acc.1 ++ [mkEntry a]) ++ rest.map mkEntry :=
            ih (acc.1 ++ [mkEntry a], insert (uniqueId a) acc.2) hfresh' hnodup'
        _ = acc.1 ++ (a :: rest).map mkEntry := by simp

theorem foldl_differStep_uid_inv (batch : List RawAnime) :
    ∀ acc : List Entry × Finset String,
      (∀ e ∈ acc.1, entryUid e ∈ acc.2) →
      ∀ e ∈ (batch.foldl differStep acc).1,
        entryUid e ∈ (batch.foldl differStep acc).2 := by
  induction batch with
  | nil => intro acc h e he; exact h e he
  | cons a rest ih =>
      intro acc h
      simp only [List.foldl_cons]
      refine ih (differStep acc a) ?_
      intro e he
      unfold differStep at he ⊢
      by_cases hc : uniqueId a ∈ acc.2
      · rw [if_pos hc] at he ⊢
        exact h e he
      · rw [if_neg hc] at he ⊢
        rcases List.mem_append.mp he with h1 | h1
        · exact Finset.mem_insert_of_mem (h e h1)
        · have : e = mkEntry a := List.mem_singleton.mp h1
          subst this
          rw [entryUid_mkEntry]
          exact Finset.mem_insert_self _ _

theorem foldl_differStep_new_fresh (batch : List RawAnime) :
    ∀ acc : List Entry × Finset String,
      ∀ e ∈ (batch.foldl differStep acc).1, e ∈ acc.1 ∨ entryUid e ∉ acc.2 := by
  induction batch with
  | nil => intro acc e he; exact Or.inl he
  | cons a rest ih =>
      intro acc e he
      simp only [List.foldl_cons] at he
      rcases ih (differStep acc a) e he with h1 | h1
      · unfold differStep at h1
        by_cases hc : uniqueId a ∈ acc.2
        · rw [if_pos hc] at h1
          exact Or.inl h1
        · rw [if_neg hc] at h1
          rcases List.mem_append.mp h1 with h2 | h2
          · exact Or.inl h2
          · have : e = mkEntry a := List.mem_singleton.mp h2
            subst this
            rw [entryUid_mkEntry]
            exact Or.inr hc
      · refine Or.inr fun hmem => h1 ?_
        have := differStep_store_mono acc a
        exact this hmem

theorem foldl_differStep_uid_nodup (batch : List RawAnime) :
    ∀ acc : List Entry × Finset String,
      ((acc.1.map entryUid).Nodup ∧ ∀ e ∈ acc.1, entryUid e ∈ acc.2) →
      ((batch.foldl differStep acc).1.map entryUid).Nodup := by
  induction batch with
  | nil => intro acc h; exact h.1
  | cons a rest ih =>
      intro acc h
      simp only [List.foldl_cons]
      refine ih (differStep acc a) ?_
      unfold differStep
      by_cases hc : uniqueId a ∈ acc.2
      · rw [if_pos hc]
        exact h
      · rw [if_neg hc]
        constructor
        · simp only [List.map_append, List.map_cons, List.map_nil]
          rw [List.nodup_append]
          refine ⟨h.1, List.nodup_singleton _, ?_⟩
          intro x hx hx'
          have hxa : x = entryUid (mkEntry a) := List.mem_singleton.mp hx'
          rcases List.mem_map.mp hx with ⟨e, he, rfl⟩
          have : entryUid e ∈ acc.2 := h.2 e he
          rw [hxa] at this
          rw [entryUid_mkEntry] at this
          exact hc this
        · intro e he
          rcases List.mem_append.mp he with h1 | h1
          · exact Finset.mem_insert_of_mem (h.2 e h1)
          · have : e = mkEntry a := List.mem_singleton.mp h1
            subst this
            rw [entryUid_mkEntry]
            exact Finset.mem_insert_self _ _

theorem foldl_differStep_surfaces (batch : List RawAnime) :
    ∀ (acc : List Entry × Finset String) (i : String),
      i ∉ acc.2 → (∃ a ∈ batch, uniqueId a = i) →
      ∃ e ∈ (batch.foldl differStep acc).1, entryUid e = i := by
  induction batch with
  | nil =>
      intro acc i _ hex
      rcases hex with ⟨a, ha, _⟩
      cases ha
  | cons a rest ih =>
      intro acc i hnotin hex
      simp only [List.foldl_cons]
      by_cases hai : uniqueId a = i
      · have hstep : differStep acc a =
            (acc.1 ++ [mkEntry a], insert (uniqueId a) acc.2) := by
          unfold differStep
          rw [if_neg (hai ▸ hnotin)]
        refine ⟨mkEntry a, ?_, by rw [entryUid_mkEntry]; exact hai⟩
        apply foldl_differStep_list_mono rest (differStep acc a)
        rw [hstep]
        exact List.mem_append_right _ (List.mem_singleton_self _)
      · have hex' : ∃ b ∈ rest, uniqueId b = i := by
          rcases hex with ⟨b, hb, hbi⟩
          rcases List.mem_cons.mp hb with h | h
          · exact absurd (h ▸ hbi) hai
          · exact ⟨b, h, hbi⟩
        have hnotin' : i ∉ (differStep acc a).2 := by
          unfold differStep
          split
          · exact hnotin
          · intro hmem
            rcases Finset.mem_insert.mp hmem with h | h
            · exact hai h.symm
            · exact hnotin h
        exact ih (differStep acc a) i hnotin' hex'

/-! ### Lemmas about the endpoint fold -/

theorem passStep_store_mono (acc : List Entry × Finset String)
    (o : FetchOutcome) : acc.2 ⊆ (passStep acc o).2 := by
  cases o with
  | success l => exact foldl_differStep_store_mono (l.take 10) acc
  | failure => exact Finset.Subset.refl _

theorem foldl_passStep_store_mono (outs : List FetchOutcome) :
    ∀ acc : List Entry × Finset String,
      acc.2 ⊆ (outs.foldl passStep acc).2 := by
  induction outs with
  | nil => intro acc; exact Finset.Subset.refl _
  | cons o rest ih =>
      intro acc
      simp only [List.foldl_cons]
      exact (passStep_store_mono acc o).trans (ih (passStep acc o))

theorem foldl_passStep_uid_inv (outs : List FetchOutcome) :
    ∀ acc : List Entry × Finset String,
      (∀ e ∈ acc.1, entryUid e ∈ acc.2) →
      ∀ e ∈ (outs.foldl passStep acc).1,
        entryUid e ∈ (outs.foldl passStep acc).2 := by
  induction outs with
  | nil => intro acc h e he; exact h e he
  | cons o rest ih =>
      intro acc h
      simp only [List.foldl_cons]
      refine ih (passStep acc o) ?_
      cases o with
      | success l => exact foldl_differStep_uid_inv (l.take 10) acc h
      | failure => exact h

theorem foldl_passStep_new_fresh (outs : List FetchOutcome) :
    ∀ acc : List Entry × Finset String,
      ∀ e ∈ (outs.foldl passStep acc).1, e ∈ acc.1 ∨ entryUid e ∉ acc.2 := by
  induction outs with
  | nil => intro acc e he; exact Or.inl he
  | cons o rest ih =>
      intro acc e he
      simp only [List.foldl_cons] at he
      rcases ih (passStep acc o) e he with h1 | h1
      · cases o with
        | success l =>
            rcases foldl_differStep_new_fresh (l.take 10) acc e h1 with h2 | h2
            · exact Or.inl h2
            · exact Or.inr h2
        | failure => exact Or.inl h1
      · exact Or.inr fun hmem => h1 (passStep_store_mono acc o hmem)

theorem foldl_passStep_skip_failures (outs : List FetchOutcome) :
    ∀ acc : List Entry × Finset String,
      outs.foldl passStep acc =
        (outs.filter FetchOutcome.isSuccess).foldl passStep acc := by
  induction outs with
  | nil => intro acc; rfl
  | cons o rest ih =>
      intro acc
      cases o with
      | success l =>
          have hf : (FetchOutcome.success l :: rest).filter FetchOutcome.isSuccess
              = FetchOutcome.success l :: rest.filter FetchOutcome.isSuccess := by
            simp [List.filter_cons, FetchOutcome.isSuccess]
          rw [hf]
          simp only [List.foldl_cons]
          exact ih (passStep acc (.success l))
      | failure =>
          have hf : (FetchOutcome.failure :: rest).filter FetchOutcome.isSuccess
              = rest.filter FetchOutcome.isSuccess := by
            simp [List.filter_cons, FetchOutcome.isSuccess]
          rw [hf]
          simp only [List.foldl_cons]
          exact ih acc

/-! ### Concrete values used by witnesses and counterexamples -/

/-- A concrete raw catalog item. -/
def rawA : RawAnime :=
  { title := some "Naruto"
    title_english := some "Naruto"
    mal_id := some 20
    score := some 7
    status := some "Currently Airing"
    aired_from := some "2002-10-03T00:00:00+00:00"
    episodes := some 220
    url := some "https://myanimelist.net/anime/20"
    image_url := some "https://cdn.example/20.jpg"
    synopsis := some "A young ninja seeks recognition." }

/-- A second concrete raw catalog item with a different identity. -/
def rawB : RawAnime :=
  { title := some "Bleach"
    title_english := none
    mal_id := some 269
    score := some 8
    status := some "Finished Airing"
    aired_from := none
    episodes := some 366
    url := some "https://myanimelist.net/anime/269"
    image_url := none
    synopsis := none }

/-- A concrete raw item whose score and episodes are present but zero. -/
def rawZero : RawAnime :=
  { title := some "Mystery Show"
    title_english := none
    mal_id := some 999
    score := some 0
    status := some "Not yet aired"
    aired_from := none
    episodes := some 0
    url := some "https://myanimelist.net/anime/999"
    image_url := none
    synopsis := some "Unknown." }

/-! ### Claim theorems -/

/-- C1: for a raw batch that yields at least one new entry, running the
Entry Differ twice in succession against the same Dedup Store yields a
non-empty new-list on the first run and an empty new-list on the second:
after the first run every identity of the batch is in the store, so the
second run accepts nothing. -/
theorem dedup_idempotent (seen : Finset String) (batch : List RawAnime)
    (h : (differ seen batch).1 ≠ []) :
    (differ seen batch).1 ≠ [] ∧ (differ (differ seen batch).2 batch).1 = [] := by
  refine ⟨h, ?_⟩
  have hall : ∀ a ∈ batch,
      uniqueId a ∈ (([], (differ seen batch).2) :
        List Entry × Finset String).2 :=
    fun a ha => uniqueId_mem_foldl_differStep batch ([], seen) a ha
  have h2 := foldl_differStep_all_seen batch ([], (differ seen batch).2) hall
  show (batch.foldl differStep ([], (differ seen batch).2)).1 = []
  rw [h2]

theorem dedup_idempotent_witness :
    (differ ∅ [rawA, rawB]).1 ≠ [] ∧
      (differ (differ ∅ [rawA, rawB]).2 [rawA, rawB]).1 = [] :=
  dedup_idempotent ∅ [rawA, rawB] (by decide)

/-- C2 counterexample: the batch `[rawA, rawA]` contains two raw entries
with the same identity, yet when that identity is already in the Dedup
Store the returned new-list contains zero entries for it, not exactly
one. -/
theorem intra_batch_dedup_counterexample :
    ((differ {uniqueId rawA} [rawA, rawA]).1.map entryUid).count
      (uniqueId rawA) = 0 := by decide

/-- C2 amended: the returned new-list never holds more than one entry per
identity, and it holds exactly one entry for an identity occurring in the
raw batch provided that identity is not already in the Dedup Store. -/
theorem intra_batch_dedup (seen : Finset String) (batch : List RawAnime)
    (i : String) :
    ((differ seen batch).1.map entryUid).count i ≤ 1 ∧
    (i ∉ seen → (∃ a ∈ batch, uniqueId a = i) →
      ((differ seen batch).1.map entryUid).count i = 1) := by
  have hnd : ((differ seen batch).1.map entryUid).Nodup :=
    foldl_differStep_uid_nodup batch ([], seen) ⟨List.nodup_nil, by simp⟩
  refine ⟨List.nodup_iff_count_le_one.mp hnd i, ?_⟩
  intro hni hex
  rcases foldl_differStep_surfaces batch ([], seen) i hni hex with ⟨e, he, hei⟩
  exact List.count_eq_one_of_mem hnd (List.mem_map.mpr ⟨e, he, hei⟩)

theorem intra_batch_dedup_witness :
    ((differ ∅ [rawA, rawA]).1.map entryUid).count (uniqueId rawA) = 1 :=
  (intra_batch_dedup ∅ [rawA, rawA] (uniqueId rawA)).2
    (Finset.not_mem_empty _) ⟨rawA, List.mem_cons_self _ _, rfl⟩

/-- C6: a failing endpoint leaves the accumulated pass state untouched, and
a whole fetch pass equals the same pass restricted to its successful
endpoints, so the entries of the surviving endpoints are returned in full
and the pass never aborts. -/
theorem fault_isolation (seen : Finset String) (outs : List FetchOutcome) :
    fetchPass seen (FetchOutcome.failure :: outs) = fetchPass seen outs ∧
    fetchPass seen outs = fetchPass seen (outs.filter FetchOutcome.isSuccess) := by
  exact ⟨rfl, foldl_passStep_skip_failures outs ([], seen)⟩

/-- C3: the Dedup Store produced by a full pass is computed by the differ
alone: it does not depend on the Output Sink Reference or on delivery
success, it never loses identities, every entry of the computed new-list
has its identity in the resulting store, and any entry surfaced by a later
pass from that store has an identity that the store did not hold — so a
pass entry, whose identity the store does hold, is never surfaced again. -/
theorem seen_independent_of_delivery (seen : Finset String)
    (outs : List FetchOutcome) (chan chan2 : Option Nat) (ok ok2 : Bool)
    (e : Entry) :
    (fullPass seen outs chan ok).2.1 = (fetchPass seen outs).2 ∧
    (fullPass seen outs chan ok).2.1 = (fullPass seen outs chan2 ok2).2.1 ∧
    seen ⊆ (fullPass seen outs chan ok).2.1 ∧
    (e ∈ (fullPass seen outs chan ok).1 →
      entryUid e ∈ (fullPass seen outs chan ok).2.1) ∧
    (∀ outs2 : List FetchOutcome,
      e ∈ (fetchPass (fullPass seen outs chan ok).2.1 outs2).1 →
        entryUid e ∉ (fullPass seen outs chan ok).2.1) := by
  refine ⟨rfl, rfl, ?_, ?_, ?_⟩
  · exact foldl_passStep_store_mono outs ([], seen)
  · intro he
    exact foldl_passStep_uid_inv outs ([], seen) (by simp) e he
  · intro outs2 he
    rcases foldl_passStep_new_fresh outs2
      ([], (fullPass seen outs chan ok).2.1) e he with h | h
    · exact absurd h (List.not_mem_nil e)
    · exact h

set_option maxRecDepth 10000 in
theorem seen_independent_of_delivery_witness :
    entryUid (mkEntry rawA) ∈
      (fullPass ∅ [FetchOutcome.success [rawA]] none false).2.1 ∧
    entryUid (mkEntry rawB) ∉
      (fullPass ∅ [FetchOutcome.success [rawA]] none false).2.1 :=
  ⟨(seen_independent_of_delivery ∅ [FetchOutcome.success [rawA]] none
      (some 1) false true (mkEntry rawA)).2.2.2.1 (by decide),
   (seen_independent_of_delivery ∅ [FetchOutcome.success [rawA]] none
      (some 1) false true (mkEntry rawB)).2.2.2.2 [FetchOutcome.success [rawB]]
      (by decide)⟩

/-- C4: start is single-flight: with a live loop task a start request only
reports that the checker is already running and changes nothing; after any
start exactly one loop task is active, a second start without an
intervening stop is that exact no-op acknowledgment, and across the two
calls at most one task is spawned. -/
theorem startCmd_of_alive (s : BotState) (c : Nat)
    (h : taskAlive s.check_task = true) :
    startCmd s c = (s, "❌ Anime checker is already running!") := by
  unfold startCmd
  rw [if_pos h]

theorem startCmd_of_idle (s : BotState) (c : Nat)
    (h : taskAlive s.check_task = false) :
    startCmd s c =
      ({ s with
          notification_channel := some c
          check_task := some TaskStatus.running
          spawned := s.spawned + 1 },
        "✅ Anime Checker Started!") := by
  unfold startCmd
  rw [if_neg (by simp [h])]

theorem start_single_flight (s : BotState) (c c2 : Nat) :
    (taskAlive s.check_task = true →
      startCmd s c = (s, "❌ Anime checker is already running!")) ∧
    activeLoopTasks (startCmd s c).1 = 1 ∧
    startCmd (startCmd s c).1 c2 =
      ((startCmd s c).1, "❌ Anime checker is already running!") ∧
    (startCmd (startCmd s c).1 c2).1.spawned ≤ s.spawned + 1 := by
  by_cases h : taskAlive s.check_task = true
  · have h1 := startCmd_of_alive s c h
    have halive : taskAlive (startCmd s c).1.check_task = true := by
      rw [h1]
      exact h
    have h2 := startCmd_of_alive (startCmd s c).1 c2 halive
    refine ⟨fun _ => h1, ?_, h2, ?_⟩
    · rw [h1]
      unfold activeLoopTasks
      exact if_pos h
    · rw [h2, h1]
      exact Nat.le_succ _
  · have h1 := startCmd_of_idle s c (Bool.not_eq_true _ ▸ h)
    have halive : taskAlive (startCmd s c).1.check_task = true := by
      rw [h1]
      rfl
    have h2 := startCmd_of_alive (startCmd s c).1 c2 halive
    refine ⟨fun hcontra => absurd hcontra h, ?_, h2, ?_⟩
    · unfold activeLoopTasks
      rw [if_pos halive]
    · rw [h2, h1]

theorem start_single_flight_witness :
    startCmd ⟨some TaskStatus.running, ∅, none, 1⟩ 5 =
      (⟨some TaskStatus.running, ∅, none, 1⟩,
        "❌ Anime checker is already running!") :=
  (start_single_flight ⟨some TaskStatus.running, ∅, none, 1⟩ 5 7).1 rfl

/-- A concrete store holding seven identities. -/
def sevenIds : Finset String :=
  {"id1", "id2", "id3", "id4", "id5", "id6", "id7"}

/-- C5: the clear command reports the size of the Dedup Store before
clearing and leaves it empty; the very next differ pass then surfaces every
entry of a batch again — each identity of the batch reappears in the
new-list, and a batch of pairwise distinct identities is returned in full. -/
theorem clear_resets_exposure (s : BotState) (batch : List RawAnime) :
    (clearCmd s).2 = s.last_seen_titles.card ∧
    (clearCmd s).1.last_seen_titles.card = 0 ∧
    (∀ a ∈ batch, ∃ e ∈ (differ (clearCmd s).1.last_seen_titles batch).1,
      entryUid e = uniqueId a) ∧
    ((batch.map uniqueId).Nodup →
      (differ (clearCmd s).1.last_seen_titles batch).1 = batch.map mkEntry) := by
  refine ⟨rfl, by simp [clearCmd], ?_, ?_⟩
  · intro a ha
    exact foldl_differStep_surfaces batch ([], ∅) (uniqueId a)
      (Finset.not_mem_empty _) ⟨a, ha, rfl⟩
  · intro hnd
    have h := foldl_differStep_fresh batch ([], ∅)
      (fun a _ => Finset.not_mem_empty _) hnd
    simpa [differ] using h

theorem clear_resets_exposure_witness :
    (clearCmd ⟨none, sevenIds, none, 0⟩).2 = 7 ∧
    (clearCmd ⟨none, sevenIds, none, 0⟩).1.last_seen_titles.card = 0 ∧
    (differ (clearCmd ⟨none, sevenIds, none, 0⟩).1.last_seen_titles
      [rawA, rawB]).1 = [mkEntry rawA, mkEntry rawB] :=
  ⟨((clear_resets_exposure ⟨none, sevenIds, none, 0⟩ [rawA, rawB]).1).trans
      (by decide),
   (clear_resets_exposure ⟨none, sevenIds, none, 0⟩ [rawA, rawB]).2.1,
   ((clear_resets_exposure ⟨none, sevenIds, none, 0⟩ [rawA, rawB]).2.2.2
      (by decide)).trans rfl⟩

/-- C7: an entry whose synopsis is a 500-character string carries a summary
that is exactly the first 200 characters of the synopsis followed by the
ellipsis marker, and that summary appears as the synopsis line of the
rendered block. -/
theorem truncation (a : RawAnime) (s : String) (h1 : a.synopsis = some s)
    (h2 : s.length = 500) :
    (mkEntry a).synopsis = s.take 200 ++ "..." ∧
    (s.take 200).length = 200 ∧
    Chunk.synopsisLine ((mkEntry a).synopsis) ∈ fieldChunks (mkEntry a) := by
  have hne : ¬ (s.isEmpty = true) := by
    rw [String.isEmpty_iff]
    intro hs
    rw [hs] at h2
    simp at h2
  refine ⟨?_, ?_, ?_⟩
  · show mkSummary a.synopsis = s.take 200 ++ "..."
    rw [h1]
    show (if s.isEmpty = true then "No synopsis available"
      else s.take 200 ++ "...") = s.take 200 ++ "..."
    rw [if_neg hne]
  · rw [String.take_eq]
    show (s.1.take 200).length = 200
    rw [List.length_take]
    have hl : s.1.length = 500 := h2
    rw [hl]
    omega
  · unfold fieldChunks
    simp

/-- The 500-character synopsis used in the truncation witness. -/
def syn500 : String := String.mk (List.replicate 500 'a')

/-- A raw item carrying the 500-character synopsis. -/
def raw500 : RawAnime := { rawA with synopsis := some syn500 }

set_option maxRecDepth 10000 in
theorem truncation_witness :
    (mkEntry raw500).synopsis = syn500.take 200 ++ "..." ∧
    (syn500.take 200).length = 200 ∧
    Chunk.synopsisLine ((mkEntry raw500).synopsis) ∈ fieldChunks (mkEntry raw500) :=
  truncation raw500 syn500 rfl (by decide)

/-- C8: with more than 5 new entries the rendered notification holds the
full-detail blocks of exactly the first 5 entries in order followed by a
single count-only field for the remainder; with 5 or fewer entries only the
full-detail blocks appear. -/
theorem notification_cap (l : List Entry) :
    (5 < l.length →
      embedFields l = (l.take 5).map mkField ++ [moreField (l.length - 5)]) ∧
    (l.length ≤ 5 → embedFields l = l.map mkField) := by
  constructor
  · intro h
    unfold embedFields
    rw [if_pos h]
  · intro h
    unfold embedFields
    rw [if_neg (by omega), List.take_of_length_le h]
    simp

theorem notification_cap_witness :
    embedFields (List.replicate 8 (mkEntry rawA)) =
      ((List.replicate 8 (mkEntry rawA)).take 5).map mkField ++ [moreField 3] ∧
    embedFields (List.replicate 3 (mkEntry rawA)) =
      (List.replicate 3 (mkEntry rawA)).map mkField :=
  ⟨(notification_cap (List.replicate 8 (mkEntry rawA))).1 (by decide),
   (notification_cap (List.replicate 3 (mkEntry rawA))).2 (by decide)⟩

/-- C9 counterexample: the entry built from rawZero has its score field
present with value 0 and its episodes field present with value 0, yet the
rendered block contains no score line and no episodes line — presence of
the field alone does not put the line in the block. -/
theorem score_episode_lines_counterexample :
    (mkEntry rawZero).score = some 0 ∧
    (mkEntry rawZero).episodes = some 0 ∧
    (∀ q : ℚ, Chunk.scoreLine q ∉ fieldChunks (mkEntry rawZero)) ∧
    (∀ n : Int, Chunk.episodesLine n ∉ fieldChunks (mkEntry rawZero)) := by
  refine ⟨rfl, rfl, ?_, ?_⟩ <;>
    intro x <;>
      simp [fieldChunks, mkEntry, rawZero, pyTruthyQ, pyTruthyInt, mkSummary]

/-- C9 amended: a full-detail block includes the score line exactly when
the score field is present with a nonzero value, and the episode-count
line exactly when the episodes field is present with a nonzero value
(Python truthiness: a present zero is rendered like an absent field). -/
theorem score_episode_lines (e : Entry) (q : ℚ) (n : Int) :
    (e.score = some q → (Chunk.scoreLine q ∈ fieldChunks e ↔ q ≠ 0)) ∧
    (e.episodes = some n → (Chunk.episodesLine n ∈ fieldChunks e ↔ n ≠ 0)) := by
  constructor
  · intro hq
    by_cases h0 : q = 0 <;>
      by_cases he : pyTruthyInt e.episodes <;>
        simp [fieldChunks, hq, pyTruthyQ, h0, he]
  · intro hn
    by_cases h0 : n = 0 <;>
      by_cases hs : pyTruthyQ e.score <;>
        simp [fieldChunks, hn, pyTruthyInt, h0, hs]

theorem score_episode_lines_witness :
    Chunk.scoreLine 7 ∈ fieldChunks (mkEntry rawA) ∧
    Chunk.episodesLine 220 ∈ fieldChunks (mkEntry rawA) :=
  ⟨((score_episode_lines (mkEntry rawA) 7 220).1 rfl).mpr (by decide),
   ((score_episode_lines (mkEntry rawA) 7 220).2 rfl).mpr (by decide)⟩

/-- C10: a truthy synopsis yields its first min(200, length) characters
followed by the ellipsis marker — also when the synopsis is 200 characters
or shorter and nothing was truncated; a missing, null or empty synopsis
yields the fixed placeholder with no ellipsis. -/
theorem summary_semantics (s : String) :
    (s ≠ "" → mkSummary (some s) = s.take (min 200 s.length) ++ "...") ∧
    mkSummary (some "") = "No synopsis available" ∧
    mkSummary none = "No synopsis available" := by
  refine ⟨?_, rfl, rfl⟩
  intro hs
  have hne : ¬ (s.isEmpty = true) := fun h => hs ((String.isEmpty_iff s).mp h)
  show (if s.isEmpty = true then "No synopsis available"
    else s.take 200 ++ "...") = s.take (min 200 s.length) ++ "..."
  rw [if_neg hne]
  have hl : s.length = s.1.length := rfl
  have hlist : s.1.take (min 200 s.length) = s.1.take 200 :=
    List.take_eq_take.mpr (by omega)
  rw [String.take_eq s 200, String.take_eq s (min 200 s.length), hlist]

theorem summary_semantics_witness :
    mkSummary (some "Hi") = "Hi".take (min 200 "Hi".length) ++ "..." :=
  (summary_semantics "Hi").1 (by decide)

end GhostAnime
